import Mathlib

/-!
Verification of the beat-scheduling core of the Animal Band application
(src/src/App.jsx).  The development shallowly embeds the timing-relevant
parts of the source: the pure helpers `clamp` and `shouldHit` (lines 7-9),
the interval computation and the drift-corrected polling loop of
`scheduleBeats` (lines 380-394) together with `triggerBeat` (lines 396-401),
the per-beat visual pulse (line 399), and the ref-level playback lifecycle
`play` / `stop` / `clearScheduler` (lines 365-377) with the reschedule
effect (lines 408-409).  Clock readings and millisecond times are modelled
as rationals; JavaScript integer state is modelled as Nat/Int.
-/

namespace AnimalBand

/-- Helper `clamp` (App.jsx line 7): `Math.max(min, Math.min(max, n))`. -/
def clamp (n lo hi : ℚ) : ℚ := max lo (min hi n)

/-- Remainder of the JavaScript `%` operator on integer operands: truncated
division, sign of the dividend.  A zero divisor yields `NaN` in JavaScript,
modelled here as `none`. -/
def jsRem (a b : ℤ) : Option ℤ := if b = 0 then none else some (Int.tmod a b)

/-- Helper `shouldHit` (App.jsx line 9): `beatIndex % subdivision === 0`.
When the remainder is `NaN` (zero divisor) the strict equality
`NaN === 0` is `false`. -/
def shouldHit (beatIndex subdivision : ℤ) : Bool :=
  match jsRem beatIndex subdivision with
  | none => false
  | some r => r == 0

/-- Quantize factor selection (App.jsx line 382):
`quantize === "1/1" ? 1 : quantize === "1/2" ? 0.5 : 0.25`. -/
def quantizeFactor (quantize : String) : ℚ :=
  if quantize = "1/1" then 1 else if quantize = "1/2" then 0.5 else 0.25

/-- `beatMs` (App.jsx line 381): `60000 / clamp(tempo, 40, 240)`. -/
def beatMs (tempo : ℚ) : ℚ := 60000 / clamp tempo 40 240

/-- `interval` (App.jsx line 383): `beatMs * q`. -/
def intervalOf (tempo : ℚ) (quantize : String) : ℚ :=
  beatMs tempo * quantizeFactor quantize

/-- `swingAmt` (App.jsx line 383): `swing / 100`. -/
def swingAmt (swing : ℚ) : ℚ := swing / 100

/-- Poll period of the timer (App.jsx line 394):
`Math.max(4, Math.min(16, interval / 8))`. -/
def pollPeriod (interval : ℚ) : ℚ := max 4 (min 16 (interval / 8))

/-- A beat firing: the value of `beatIndexRef` after `triggerBeat`
incremented it, together with the planned slot time (the value of
`nextBeatTimeRef` that the firing poll compared against). -/
structure BeatFire where
  index : ℕ
  scheduledAt : ℚ
deriving DecidableEq

/-- The mutable scheduler state carried across poll ticks:
`beatIndexRef.current` and `nextBeatTimeRef.current`. -/
structure SchedState where
  beatIndex : ℕ
  nextBeatTime : ℚ
deriving DecidableEq

/-- One execution of the `setInterval` callback of `scheduleBeats`
(App.jsx lines 386-393): if `now >= nextBeatTimeRef.current`, call
`triggerBeat()` (incrementing the index), compute `isOffBeat` from the
incremented index, and advance `nextBeatTimeRef.current` by
`interval + swingDelta` on top of the previous target. -/
def pollTick (interval swing now : ℚ) (s : SchedState) : SchedState × Option BeatFire :=
  if s.nextBeatTime ≤ now then
    (⟨s.beatIndex + 1,
      s.nextBeatTime + interval
        + (if (s.beatIndex + 1) % 2 = 1 then interval * swingAmt swing * 0.5 else 0)⟩,
     some ⟨s.beatIndex + 1, s.nextBeatTime⟩)
  else (s, none)

/-- Run the poll callback over a list of observed clock readings,
collecting the fired beats in order. -/
def runPolls (interval swing : ℚ) : List ℚ → SchedState → SchedState × List BeatFire
  | [], s => (s, [])
  | now :: ts, s =>
    match pollTick interval swing now s with
    | (s1, none) => runPolls interval swing ts s1
    | (s1, some f) =>
      let r := runPolls interval swing ts s1
      (r.1, f :: r.2)

/-- The beats fired by a session whose schedule was anchored at `anchor`
(App.jsx line 384 sets `nextBeatTimeRef.current = performance.now() + offsetMs`;
`beatIndexRef` starts at 0 on a fresh mount), polled at the clock readings
`ts`. -/
def firesOf (interval swing : ℚ) (ts : List ℚ) (anchor : ℚ) : List BeatFire :=
  (runPolls interval swing ts ⟨0, anchor⟩).2

/-- The ideal beat grid: the planned slot time after `k` firings.  Every odd
post-increment index contributes one swing delta, so `k` firings have
accumulated `(k+1)/2` deltas (Nat division). -/
def ideal (interval swing anchor : ℚ) (k : ℕ) : ℚ :=
  anchor + k * interval + (((k + 1) / 2 : ℕ) : ℚ) * (interval * swingAmt swing * 0.5)

lemma ideal_succ (interval swing anchor : ℚ) (k : ℕ) :
    ideal interval swing anchor (k + 1)
      = ideal interval swing anchor k + interval
        + (if (k + 1) % 2 = 1 then interval * swingAmt swing * 0.5 else 0) := by
  unfold ideal
  by_cases h : (k + 1) % 2 = 1
  · rw [if_pos h]
    have h2 : (k + 1 + 1) / 2 = (k + 1) / 2 + 1 := by omega
    rw [h2]
    push_cast
    ring
  · rw [if_neg h]
    have h2 : (k + 1 + 1) / 2 = (k + 1) / 2 := by omega
    rw [h2]
    push_cast
    ring

lemma pollTick_fire (interval swing now anchor : ℚ) (k : ℕ)
    (h : ideal interval swing anchor k ≤ now) :
    pollTick interval swing now ⟨k, ideal interval swing anchor k⟩
      = (⟨k + 1, ideal interval swing anchor (k + 1)⟩,
         some ⟨k + 1, ideal interval swing anchor k⟩) := by
  unfold pollTick
  dsimp only
  rw [if_pos h, ideal_succ]

lemma pollTick_skip (interval swing now anchor : ℚ) (k : ℕ)
    (h : ¬ ideal interval swing anchor k ≤ now) :
    pollTick interval swing now ⟨k, ideal interval swing anchor k⟩
      = (⟨k, ideal interval swing anchor k⟩, none) := by
  unfold pollTick
  dsimp only
  rw [if_neg h]

/-- Core invariant of the polling loop: started on the ideal grid after `k`
firings, the loop stays on the ideal grid and every fired beat carries its
ideal planned slot time, whatever the observed clock readings are. -/
lemma runPolls_spec (interval swing anchor : ℚ) (ts : List ℚ) (k : ℕ) :
    ∃ m, runPolls interval swing ts ⟨k, ideal interval swing anchor k⟩
      = (⟨k + m, ideal interval swing anchor (k + m)⟩,
         (List.range m).map
           (fun t => ⟨k + t + 1, ideal interval swing anchor (k + t)⟩)) := by
  induction ts generalizing k with
  | nil => exact ⟨0, by simp [runPolls]⟩
  | cons now ts ih =>
    by_cases h : ideal interval swing anchor k ≤ now
    · obtain ⟨m, hm⟩ := ih (k + 1)
      refine ⟨m + 1, ?_⟩
      unfold runPolls
      rw [pollTick_fire interval swing now anchor k h]
      dsimp only
      rw [hm]
      have hk : k + 1 + m = k + (m + 1) := by omega
      have hfun :
          (fun t => (⟨k + 1 + t + 1, ideal interval swing anchor (k + 1 + t)⟩ : BeatFire))
            = fun t => ⟨k + (t + 1) + 1, ideal interval swing anchor (k + (t + 1))⟩ := by
        funext t
        have ht : k + 1 + t = k + (t + 1) := by omega
        rw [ht]
      rw [hk, hfun]
      refine Prod.ext rfl ?_
      dsimp only
      rw [List.range_succ_eq_map, List.map_cons, List.map_map]
      rfl
    · obtain ⟨m, hm⟩ := ih k
      refine ⟨m, ?_⟩
      unfold runPolls
      rw [pollTick_skip interval swing now anchor k h]
      exact hm

lemma sum_swing (d : ℚ) (n : ℕ) :
    (∑ m ∈ Finset.range n, (if m % 2 = 1 then d else 0)) = ((n / 2 : ℕ) : ℚ) * d := by
  induction n with
  | zero => simp
  | succ n ih =>
    rw [Finset.sum_range_succ, ih]
    by_cases h : n % 2 = 1
    · rw [if_pos h]
      have h2 : (n + 1) / 2 = n / 2 + 1 := by omega
      rw [h2]
      push_cast
      ring
    · rw [if_neg h]
      have h2 : (n + 1) / 2 = n / 2 := by omega
      rw [h2]
      ring

/-- Duration of the `hitPulse` visual (App.jsx line 399:
`setHitPulse(true); setTimeout(() => setHitPulse(false), 100)`). -/
def hitPulseDuration : ℚ := 100

/-- The `hitPulse` state updates produced by a list of beat times: each
`triggerBeat` at time `b` sets the pulse `true` immediately and schedules an
independent timer setting it `false` at `b + hitPulseDuration`
(App.jsx line 399). -/
def pulseEvents (beats : List ℚ) : List (ℚ × Bool) :=
  beats.flatMap (fun b => [(b, true), (b + hitPulseDuration, false)])

/-- Insert an update into a time-ordered list of updates, after any update
with an equal or earlier time. -/
def insertEvent (e : ℚ × Bool) : List (ℚ × Bool) → List (ℚ × Bool)
  | [] => [e]
  | x :: xs => if e.1 < x.1 then e :: x :: xs else x :: insertEvent e xs

/-- Order the updates as the event loop delivers them (by time). -/
def sortEvents : List (ℚ × Bool) → List (ℚ × Bool)
  | [] => []
  | e :: es => insertEvent e (sortEvents es)

/-- Collapse a chronological list of state updates to the observable
transitions of the `hitPulse` boolean: an update that writes the value
already held causes no transition. -/
def transitions : Bool → List (ℚ × Bool) → List (ℚ × Bool)
  | _, [] => []
  | cur, (t, v) :: rest =>
    if v = cur then transitions cur rest else (t, v) :: transitions v rest

/-- Observable activate/deactivate transitions of `hitPulse` (initially
`false`) for the given beat times. -/
def hitPulseTransitions (beats : List ℚ) : List (ℚ × Bool) :=
  transitions false (sortEvents (pulseEvents beats))

/-- The deactivation timers armed for the given beat times: one independent
`setTimeout` per beat (App.jsx line 399). -/
def hitPulseTimers (beats : List ℚ) : List ℚ :=
  beats.map (fun b => b + hitPulseDuration)

/-- The tempo configuration held in component state and read by
`scheduleBeats` and the reschedule effect: `bpm`, `manualBpm`, `quantize`,
`swing`, `offsetMs` (App.jsx lines 321-325). -/
structure Config where
  bpm : Option ℚ
  manualBpm : ℚ
  quantize : String
  swing : ℚ
  offsetMs : ℚ

/-- `bpm ?? manualBpm` (App.jsx lines 373 and 408). -/
def tempoOf (cfg : Config) : ℚ := cfg.bpm.getD cfg.manualBpm

/-- The ref-level state touched by the playback lifecycle:
`isPlaying`, `sourceRef`, `nextBeatTimeRef`, `schedulerTimerRef`
(holding the poll period of the armed interval timer), `beatIndexRef`. -/
structure AppState where
  isPlaying : Bool
  source : Option Unit
  nextBeatTime : ℚ
  schedulerTimer : Option ℚ
  beatIndex : ℕ
deriving DecidableEq

/-- `clearScheduler` (App.jsx line 377): clear the interval timer if one is
armed; a no-op otherwise. -/
def clearScheduler (s : AppState) : AppState := { s with schedulerTimer := none }

/-- `stop` (App.jsx line 376): stop and release the audio source if any,
set `isPlaying` to false, clear the scheduler.  The `src.stop()` call is
wrapped in try/catch in the source, so no state raises an error. -/
def stop (s : AppState) : AppState :=
  clearScheduler { s with source := none, isPlaying := false }

/-- The ref-level effect of `scheduleBeats(tempo)` (App.jsx lines 380-394):
recompute the interval from the current config, reset
`nextBeatTimeRef.current = performance.now() + offsetMs`, clear any armed
timer and arm a fresh interval timer with the recomputed poll period. -/
def scheduleBeats (cfg : Config) (now tempo : ℚ) (s : AppState) : AppState :=
  { clearScheduler { s with nextBeatTime := now + cfg.offsetMs } with
      schedulerTimer := some (pollPeriod (intervalOf tempo cfg.quantize)) }

/-- `play(buffer)` (App.jsx lines 365-375): take `buffer ?? audioBufferRef`;
if neither is available, return at once.  Otherwise stop any existing
session, start a fresh source, set `isPlaying`, and schedule beats at
`bpm ?? manualBpm`. -/
def play (buffer loadedBuffer : Option Unit) (cfg : Config) (now : ℚ)
    (s : AppState) : AppState :=
  match buffer.orElse (fun _ => loadedBuffer) with
  | none => s
  | some _ =>
    scheduleBeats cfg now (tempoOf cfg)
      { stop s with source := some (), isPlaying := true }

/-- The reschedule effect (App.jsx lines 408-409): on any change of `bpm`,
`manualBpm`, `quantize`, `swing` or `offsetMs`, do nothing unless playing;
otherwise call `scheduleBeats(bpm ?? manualBpm)` on the running session. -/
def rescheduleOnConfigChange (cfg : Config) (now : ℚ) (s : AppState) : AppState :=
  if s.isPlaying then scheduleBeats cfg now (tempoOf cfg) s else s

/-- The band roster (App.jsx lines 328-332): fixed subdivisions 1, 1, 2;
no construction-time validation of the subdivision factor exists. -/
def band : List (String × String × ℤ) :=
  [("octo", "drums", 1), ("seahorse", "violin", 1), ("seal", "bass", 2)]

lemma clamp_eq_self {n lo hi : ℚ} (h1 : lo ≤ n) (h2 : n ≤ hi) : clamp n lo hi = n := by
  unfold clamp
  rw [min_eq_right h2, max_eq_right h1]

lemma clamp_eq_lo {n lo hi : ℚ} (h1 : n ≤ lo) (h2 : lo ≤ hi) : clamp n lo hi = lo := by
  unfold clamp
  rw [min_eq_right (le_trans h1 h2), max_eq_left h1]

lemma clamp_eq_hi {n lo hi : ℚ} (h1 : hi ≤ n) (h2 : lo ≤ hi) : clamp n lo hi = hi := by
  unfold clamp
  rw [min_eq_left h1, max_eq_right h2]

/-- C1: Drift invariant of the scheduler.  While the poll loop runs with a
fixed configuration, each firing advances the next scheduled time by adding
the interval (plus swing delta) to the previous target; hence for every `N`,
whatever clock readings `ts` the polls observe (however late each beat is
detected), the planned firing time of the `N`-th fired beat equals
`anchor + N * interval` plus one swing adjustment for every odd index up to
`N`. -/
theorem drift_invariant (interval swing anchor : ℚ) (ts : List ℚ) (N : ℕ)
    (h : N < (firesOf interval swing ts anchor).length) :
    ((firesOf interval swing ts anchor).get ⟨N, h⟩).scheduledAt
      = anchor + N * interval
        + ∑ m ∈ Finset.range (N + 1),
            (if m % 2 = 1 then interval * swingAmt swing * 0.5 else 0) := by
  obtain ⟨m, hm⟩ := runPolls_spec interval swing anchor ts 0
  have h0 : ideal interval swing anchor 0 = anchor := by
    unfold ideal
    norm_num
  rw [h0] at hm
  unfold firesOf at h ⊢
  rw [List.get_eq_getElem, sum_swing]
  simp only [hm, List.getElem_map, List.getElem_range, Nat.zero_add]
  unfold ideal
  ring

/-- C1 witness: a single poll at the anchor fires beat 0 at the anchor. -/
theorem drift_invariant_witness :
    ((firesOf 500 0 [(0 : ℚ)] 0).get ⟨0, by decide⟩).scheduledAt
      = 0 + (0 : ℕ) * 500
        + ∑ m ∈ Finset.range (0 + 1),
            (if m % 2 = 1 then 500 * swingAmt 0 * 0.5 else 0) :=
  drift_invariant 500 0 0 [0] 0 (by decide)

/-- C4 counterexample: starting from a fresh mount (`beatIndexRef` = 0) with
one poll at the anchor, the first fired beat carries index 1, not 0 —
`triggerBeat` increments the ref before it is read. -/
theorem first_beat_index_is_one :
    (firesOf 500 0 [(0 : ℚ)] 0).map BeatFire.index = [1] ∧ (1 : ℕ) ≠ 0 := by
  refine ⟨by decide, by decide⟩

/-- C4 (amended): emitted beat indices form the sequence 1, 2, 3, ...: the
`N`-th beat fired after a fresh start has index `N + 1`, so indices are
non-negative, increment by exactly 1 per firing, and are delivered in
strictly increasing order, but the sequence begins at 1 rather than 0. -/
theorem beat_index_sequence (interval swing anchor : ℚ) (ts : List ℚ) (N : ℕ)
    (h : N < (firesOf interval swing ts anchor).length) :
    ((firesOf interval swing ts anchor).get ⟨N, h⟩).index = N + 1 := by
  obtain ⟨m, hm⟩ := runPolls_spec interval swing anchor ts 0
  have h0 : ideal interval swing anchor 0 = anchor := by
    unfold ideal
    norm_num
  rw [h0] at hm
  unfold firesOf at h ⊢
  rw [List.get_eq_getElem]
  simp only [hm, List.getElem_map, List.getElem_range, Nat.zero_add]

/-- C4 witness for the amended statement. -/
theorem beat_index_sequence_witness :
    ((firesOf 500 0 [(0 : ℚ)] 0).get ⟨0, by decide⟩).index = 0 + 1 :=
  beat_index_sequence 500 0 0 [0] 0 (by decide)

/-- C5: Swing application.  The swing fraction is `swing / 100`; on a firing
poll the next scheduled time receives exactly the addition
`interval * swingFraction * 0.5` when the just-fired beat index is odd; an
even index contributes nothing; and for non-negative swing the delta is
never subtracted (the advance is at least the plain interval). -/
theorem swing_application (interval swing now : ℚ) (s : SchedState)
    (hfire : s.nextBeatTime ≤ now) (hsw : 0 ≤ swing) :
    swingAmt swing = swing / 100 ∧
    (pollTick interval swing now s).1.nextBeatTime
      = s.nextBeatTime + interval
        + (if (s.beatIndex + 1) % 2 = 1 then interval * swingAmt swing * 0.5 else 0) ∧
    ((s.beatIndex + 1) % 2 = 0 →
      (pollTick interval swing now s).1.nextBeatTime = s.nextBeatTime + interval) ∧
    (0 ≤ interval →
      s.nextBeatTime + interval ≤ (pollTick interval swing now s).1.nextBeatTime) := by
  unfold pollTick
  rw [if_pos hfire]
  dsimp only
  refine ⟨rfl, rfl, ?_, ?_⟩
  · intro he
    have hne : ¬ (s.beatIndex + 1) % 2 = 1 := by omega
    rw [if_neg hne, add_zero]
  · intro hi
    by_cases h2 : (s.beatIndex + 1) % 2 = 1
    · rw [if_pos h2]
      have hd : 0 ≤ interval * swingAmt swing * 0.5 := by
        unfold swingAmt
        positivity
      linarith
    · rw [if_neg h2, add_zero]

/-- C5 witness: a concrete firing poll with swing 50 percent. -/
theorem swing_application_witness :
    swingAmt 50 = 50 / 100 ∧
    (pollTick 500 50 0 ⟨0, 0⟩).1.nextBeatTime
      = 0 + 500 + (if (0 + 1) % 2 = 1 then 500 * swingAmt 50 * 0.5 else 0) ∧
    ((0 + 1) % 2 = 0 →
      (pollTick 500 50 0 ⟨0, 0⟩).1.nextBeatTime = 0 + 500) ∧
    (0 ≤ (500 : ℚ) →
      (0 : ℚ) + 500 ≤ (pollTick 500 50 0 ⟨0, 0⟩).1.nextBeatTime) :=
  swing_application 500 50 0 ⟨0, 0⟩ (le_refl 0) (by norm_num)

/-- C3: Interval computation.  For every numeric bpm, the scheduler clamps
the bpm into [40, 240] (it is a total function, never an error) and computes
`intervalMs = (60000 / clampedBpm) * quantizeFactor`, where the quantize
factors for "1/1", "1/2", "1/4" are 1, 0.5, 0.25; any bpm in range uses the
bpm itself, any bpm below 40 yields the interval at 40, any bpm above 240
the interval at 240; at bpm 120 the three choices give 500, 250, 125 ms. -/
theorem interval_computation (bpm : ℚ) :
    (∀ q : String, intervalOf bpm q = 60000 / clamp bpm 40 240 * quantizeFactor q) ∧
    quantizeFactor "1/1" = 1 ∧
    quantizeFactor "1/2" = 0.5 ∧
    quantizeFactor "1/4" = 0.25 ∧
    (40 ≤ bpm → bpm ≤ 240 →
      ∀ q : String, intervalOf bpm q = 60000 / bpm * quantizeFactor q) ∧
    (bpm < 40 → ∀ q : String, intervalOf bpm q = intervalOf 40 q) ∧
    (240 < bpm → ∀ q : String, intervalOf bpm q = intervalOf 240 q) ∧
    intervalOf 120 "1/1" = 500 ∧
    intervalOf 120 "1/2" = 250 ∧
    intervalOf 120 "1/4" = 125 := by
  have h11 : quantizeFactor "1/1" = 1 := by
    unfold quantizeFactor
    rw [if_pos rfl]
  have h12 : quantizeFactor "1/2" = 0.5 := by
    unfold quantizeFactor
    rw [if_neg (by decide), if_pos rfl]
  have h14 : quantizeFactor "1/4" = 0.25 := by
    unfold quantizeFactor
    rw [if_neg (by decide), if_neg (by decide)]
  refine ⟨fun q => rfl, h11, h12, h14, ?_, ?_, ?_, ?_, ?_, ?_⟩
  · intro hlo hhi q
    unfold intervalOf beatMs
    rw [clamp_eq_self hlo hhi]
  · intro hlt q
    unfold intervalOf beatMs
    rw [clamp_eq_lo (le_of_lt hlt) (by norm_num),
        clamp_eq_self (le_refl 40) (by norm_num)]
  · intro hgt q
    unfold intervalOf beatMs
    rw [clamp_eq_hi (le_of_lt hgt) (by norm_num),
        clamp_eq_self (by norm_num) (le_refl 240)]
  · unfold intervalOf beatMs
    rw [clamp_eq_self (by norm_num) (by norm_num), h11]
    norm_num
  · unfold intervalOf beatMs
    rw [clamp_eq_self (by norm_num) (by norm_num), h12]
    norm_num
  · unfold intervalOf beatMs
    rw [clamp_eq_self (by norm_num) (by norm_num), h14]
    norm_num

/-- C3 witness: the clamp branches exercised at bpm 30 (below range),
bpm 300 (above range) and bpm 120 (in range). -/
theorem interval_computation_witness :
    (intervalOf 30 "1/1" = intervalOf 40 "1/1") ∧
    (intervalOf 300 "1/2" = intervalOf 240 "1/2") ∧
    (intervalOf 120 "1/4" = 60000 / 120 * quantizeFactor "1/4") :=
  ⟨((interval_computation 30).2.2.2.2.2.1 (by norm_num)) "1/1",
   ((interval_computation 300).2.2.2.2.2.2.1 (by norm_num)) "1/2",
   ((interval_computation 120).2.2.2.2.1 (by norm_num) (by norm_num)) "1/4"⟩

/-- C7: Subdivision relevance.  For every non-negative beat index and
positive subdivision factor `k`, `shouldHit` returns true exactly when the
index is divisible by `k`. -/
theorem isRelevant_iff (beatIndex k : ℕ) (hk : 0 < k) :
    (shouldHit (beatIndex : ℤ) (k : ℤ) = true ↔ beatIndex % k = 0) := by
  unfold shouldHit jsRem
  rw [if_neg (by exact_mod_cast hk.ne')]
  have ht : Int.tmod (beatIndex : ℤ) (k : ℤ) = ((beatIndex % k : ℕ) : ℤ) :=
    (Int.ofNat_tmod beatIndex k).symm
  rw [ht]
  simp only [beq_iff_eq, Int.natCast_eq_zero]

/-- C7 witness: index 4 with subdivision 2 is relevant. -/
theorem isRelevant_iff_witness :
    shouldHit ((4 : ℕ) : ℤ) ((2 : ℕ) : ℤ) = true ↔ (4 : ℕ) % 2 = 0 :=
  isRelevant_iff 4 2 (by decide)

/-- C10: The relevance predicate is total on a zero subdivision factor: the
JavaScript expression `beatIndex % 0` is `NaN` and `NaN === 0` is `false`,
so for every beat index `shouldHit` evaluates without error and returns
`false`; no code path in the source validates or rejects a non-positive
subdivision (the `band` roster is built with literal subdivisions and
`shouldHit` is applied unguarded). -/
theorem shouldHit_zero_subdivision (beatIndex : ℤ) :
    shouldHit beatIndex 0 = false := by
  unfold shouldHit jsRem
  rw [if_pos rfl]

/-- C2: Evaluation of the pulse code at the failing input.  Two beats fire
at t = 0 and t = 50, within `hitPulseDuration` = 100 of each other.  The
source arms one independent deactivation timer per beat (two timers, due at
100 and 150), and the observable pulse transitions are an activation at 0
and a deactivation at 100 — the EARLIER beat's expiry — cutting the second
beat's pulse short, instead of the single extended deactivation at 150 that
the claim requires. -/
theorem pulse_not_idempotent :
    hitPulseTransitions [0, 50] = [(0, true), (100, false)] ∧
    hitPulseTimers [0, 50] = [100, 150] ∧
    (100 : ℚ) ≠ 150 := by
  refine ⟨?_, ?_, by norm_num⟩
  · norm_num [hitPulseTransitions, pulseEvents, sortEvents, insertEvent,
      transitions, hitPulseDuration]
  · norm_num [hitPulseTimers, hitPulseDuration]

/-- C6 counterexample: a session playing with its armed slot at
`nextBeatTime` = 2000 receives a config change at clock reading 1700 (offset
0); the reschedule resets the anchor to `performance.now() + offsetMs` =
1700 instead of keeping the previous target 2000 — the anchor is NOT
preserved. -/
theorem reschedule_resets_anchor :
    (rescheduleOnConfigChange ⟨none, 120, "1/1", 0, 0⟩ 1700
        ⟨true, some (), 2000, some 16, 4⟩).nextBeatTime = 1700 ∧
    (⟨true, some (), 2000, some 16, 4⟩ : AppState).nextBeatTime = 2000 ∧
    (1700 : ℚ) ≠ 2000 := by
  refine ⟨?_, rfl, by norm_num⟩
  unfold rescheduleOnConfigChange scheduleBeats clearScheduler
  norm_num

/-- C6 (amended): a config change while playing reschedules the running
scheduler in place — the interval and poll period are recomputed, the audio
source is untouched (playback is not restarted) and the beat counter is
kept — but the anchor is reset to the current clock reading plus
`offsetMs`, not preserved. -/
theorem reschedule_in_place (cfg : Config) (now : ℚ) (s : AppState)
    (hp : s.isPlaying = true) :
    (rescheduleOnConfigChange cfg now s).source = s.source ∧
    (rescheduleOnConfigChange cfg now s).isPlaying = true ∧
    (rescheduleOnConfigChange cfg now s).beatIndex = s.beatIndex ∧
    (rescheduleOnConfigChange cfg now s).nextBeatTime = now + cfg.offsetMs ∧
    (rescheduleOnConfigChange cfg now s).schedulerTimer
      = some (pollPeriod (intervalOf (tempoOf cfg) cfg.quantize)) := by
  unfold rescheduleOnConfigChange scheduleBeats clearScheduler
  rw [hp, if_pos rfl]
  exact ⟨rfl, rfl, rfl, rfl, rfl⟩

/-- C6 witness for the amended statement. -/
theorem reschedule_in_place_witness :
    (rescheduleOnConfigChange ⟨none, 120, "1/1", 0, 0⟩ 1700
        ⟨true, some (), 2000, some 16, 4⟩).source
      = (⟨true, some (), 2000, some 16, 4⟩ : AppState).source ∧
    (rescheduleOnConfigChange ⟨none, 120, "1/1", 0, 0⟩ 1700
        ⟨true, some (), 2000, some 16, 4⟩).isPlaying = true ∧
    (rescheduleOnConfigChange ⟨none, 120, "1/1", 0, 0⟩ 1700
        ⟨true, some (), 2000, some 16, 4⟩).beatIndex
      = (⟨true, some (), 2000, some 16, 4⟩ : AppState).beatIndex ∧
    (rescheduleOnConfigChange ⟨none, 120, "1/1", 0, 0⟩ 1700
        ⟨true, some (), 2000, some 16, 4⟩).nextBeatTime
      = 1700 + (⟨none, 120, "1/1", 0, 0⟩ : Config).offsetMs ∧
    (rescheduleOnConfigChange ⟨none, 120, "1/1", 0, 0⟩ 1700
        ⟨true, some (), 2000, some 16, 4⟩).schedulerTimer
      = some (pollPeriod (intervalOf (tempoOf ⟨none, 120, "1/1", 0, 0⟩)
          (⟨none, 120, "1/1", 0, 0⟩ : Config).quantize)) :=
  reschedule_in_place ⟨none, 120, "1/1", 0, 0⟩ 1700
    ⟨true, some (), 2000, some 16, 4⟩ rfl

/-- C8: `stop` is idempotent and total: it is a pure total function on the
session state, calling it twice equals calling it once from any state, and
on an idle state (no source, no armed timer, not playing) it is exactly the
identity — no observable event, no error. -/
theorem stop_idempotent (s : AppState) :
    stop (stop s) = stop s ∧
    (s.isPlaying = false → s.source = none → s.schedulerTimer = none →
      stop s = s) := by
  obtain ⟨p, src, nb, tm, bi⟩ := s
  refine ⟨rfl, ?_⟩
  intro h1 h2 h3
  dsimp only at h1 h2 h3
  subst h1
  subst h2
  subst h3
  rfl

/-- C8 witness: stopping an idle session leaves it untouched. -/
theorem stop_idempotent_witness :
    stop ⟨false, none, 0, none, 0⟩ = (⟨false, none, 0, none, 0⟩ : AppState) :=
  (stop_idempotent ⟨false, none, 0, none, 0⟩).2 rfl rfl rfl

/-- C9 counterexample: `play` with no decoded media (`if (!buf) return;`,
App.jsx line 366) returns with the state exactly unchanged: no error value
exists anywhere on this path and nothing user-visible happens — contrary to
the claim that a NoMediaLoaded / MediaUnavailable error is surfaced to the
UI.  (The parts of the claim that do hold — playback does not start and the
scheduler is never armed — follow from the state being unchanged.) -/
theorem play_no_media_silent :
    play none none ⟨none, 120, "1/1", 0, 0⟩ 0 ⟨false, none, 0, none, 0⟩
      = (⟨false, none, 0, none, 0⟩ : AppState) := rfl

/-- C9 (amended): if no decoded audio source is available, `play` returns
immediately as a silent no-op: the state — including the playing flag and
the scheduler timer — is unchanged, playback does not start, the scheduler
is never armed, and no error is raised or surfaced. -/
theorem play_no_media_noop (cfg : Config) (now : ℚ) (s : AppState) :
    play none none cfg now s = s := rfl

end AnimalBand
